import Mathlib

/-!
Shallow embedding of `src/buttonmapper/ControllerMapper.cpp` (class
`CControllerMapper`) from the peripheral.joystick repository.

The translation unit in the repository defines the orchestrator logic
(`OnAdd`, `AddControllerMap`, `TransformFeatures`).  Its collaborators —
the container typedefs (`ButtonMap`, `ControllerMap`,
`FeatureOccurrences`), the model class `CControllerModel`, the key
classes `CJoystickFamily` / `CDriverGeometry`, and the feature value
class `ADDON::JoystickFeature` — are declared outside the unit and are
modelled here from the spec, as documented on each definition.  Ordered
C++ maps are modelled as association lists; `operator[]` on a map is
modelled by `ensureKey` (inserting a default value when the key is
absent), mirroring the default-construct-on-access semantics the code
relies on.
-/

namespace JOYSTICK

/-- Modelled from the spec: the feature kinds of `JOYSTICK_FEATURE_TYPE`
(scalar, motor, analog stick, accelerometer, plus an unknown default),
a closed enumeration dispatched on by the equality oracle. -/
inductive FeatureType where
  | unknown
  | scalar
  | motor
  | analogStick
  | accelerometer
deriving DecidableEq, Repr

/-- Modelled from the spec: `ADDON::JoystickFeature` — a feature carries a
human-readable name, a kind, and kind-specific comparable primitives
(one primitive for Scalar/Motor, four directional primitives for
AnalogStick, three positive-axis primitives for Accelerometer).
Primitives are opaque comparable values, modelled as `Nat`. -/
structure JoystickFeature where
  name : String
  ftype : FeatureType
  primitive : Nat
  up : Nat
  down : Nat
  right : Nat
  left : Nat
  positiveX : Nat
  positiveY : Nat
  positiveZ : Nat
deriving DecidableEq, Repr

/-- Modelled from the spec: `FeatureVector` is a sequence of features. -/
abbrev FeatureVector := List JoystickFeature

/-- Modelled from the spec: `ControllerMapItem`, an ordered pair of
controller identities used as a map key. -/
structure ControllerMapItem where
  fromController : String
  toController : String
deriving DecidableEq, Repr

/-- Modelled from the spec: `FeatureMapItem`, an ordered pair of feature
names scoped within one controller pair. -/
structure FeatureMapItem where
  fromFeature : String
  toFeature : String
deriving DecidableEq, Repr

/-- Modelled from the spec: `FeatureOccurrences`, a mapping from feature
name pairs to occurrence counts (an ordered C++ map, modelled as an
association list). -/
abbrev FeatureOccurrences := List (FeatureMapItem × Nat)

/-- Modelled from the spec: `ControllerMap`, a mapping from controller
pair keys to feature occurrence tables. -/
abbrev ControllerMap := List (ControllerMapItem × FeatureOccurrences)

/-- Modelled from the spec: `CControllerModel` holds the correspondence
table (`GetMap`) plus cached/derived state.  The cache contents are
recomputed deterministically from the counts, so only the invalidation
events are observable; `resetCount` counts the `Reset()` calls so that
invalidation (or its absence) is visible in the state. -/
structure CControllerModel where
  map : ControllerMap
  resetCount : Nat
deriving DecidableEq, Repr

/-- A freshly value-initialized `CControllerModel`. -/
def emptyModel : CControllerModel := ⟨[], 0⟩

/-- Modelled from the spec: `CJoystickFamily`, the identity grouping key
(device name + provider). -/
structure CJoystickFamily where
  familyName : String
  provider : String
deriving DecidableEq, Repr

/-- Modelled from the spec: `CDriverGeometry`, the hardware grouping key
(button/hat/axis counts). -/
structure CDriverGeometry where
  buttonCount : Nat
  hatCount : Nat
  axisCount : Nat
deriving DecidableEq, Repr

/-- Modelled from the spec: the device attributes this unit reads — name,
provider, button/hat/axis counts.  Stands for both `JOYSTICK::CDevice`
(ingestion) and `ADDON::Joystick` (queries), which expose the same
accessors; device identity for deduplication is this attribute tuple. -/
structure Device where
  name : String
  provider : String
  buttonCount : Nat
  hatCount : Nat
  axisCount : Nat
deriving DecidableEq, Repr

/-- Modelled from the spec: `ButtonMap`, an ordered mapping from
controller identity to a feature list (a C++ `std::map`, so iteration
order is sorted by key; sortedness is stated as a hypothesis where a
result depends on it). -/
abbrev ButtonMap := List (String × FeatureVector)

/-- Modelled from the spec: `std::string::operator<`, the lexicographic
order on the character sequence (the load-bearing total order on
controller identities).  Bool-valued over the string's character data so
that every embedded computation evaluates. -/
def strLt (a b : String) : Bool := decide (a.data < b.data)

/-- `operator>=` on strings, as used for the swap flag: `a >= b` iff
`¬(a < b)`; here phrased as `strLe b a`. -/
def strLe (a b : String) : Bool := !strLt b a

/-- Association-list lookup, the model of `map::find`. -/
def lookupList {α β : Type} [DecidableEq α] : List (α × β) → α → Option β
  | [], _ => none
  | (k, v) :: rest, a => if k = a then some v else lookupList rest a

/-- The model of `map::operator[]` used for its insertion side effect:
if the key is absent a default-constructed value is inserted. -/
def ensureKey {α β : Type} [DecidableEq α] (dfl : β) : List (α × β) → α → List (α × β)
  | [], a => [(a, dfl)]
  | (k, v) :: rest, a =>
    if k = a then (k, v) :: rest else (k, v) :: ensureKey dfl rest a

/-- Write-back of a mutated mapped value (C++ mutates through the
reference returned by `operator[]`; the embedding re-stores the value). -/
def setKey {α β : Type} [DecidableEq α] : List (α × β) → α → β → List (α × β)
  | [], _, _ => []
  | (k, v) :: rest, a, b =>
    if k = a then (a, b) :: rest else (k, v) :: setKey rest a b

/-- `++featureMap[featureMapItem]`: increment the count stored for a
feature name pair, default-constructing it at zero first if absent. -/
def incOcc : FeatureOccurrences → FeatureMapItem → FeatureOccurrences
  | [], k => [(k, 1)]
  | (k', n) :: rest, k =>
    if k' = k then (k', n + 1) :: rest else (k', n) :: incOcc rest k

/-- Count stored for a feature name pair (zero when absent). -/
def occCount (m : FeatureOccurrences) (k : FeatureMapItem) : Nat :=
  (lookupList m k).getD 0

/-- The feature equality oracle: the `find_if` lambda of
`CControllerMapper::AddControllerMap` (ControllerMapper.cpp lines
76-106).  `fromFeature` is the captured feature, `feature` the candidate
from `featuresTo`. -/
def equivalent (fromFeature feature : JoystickFeature) : Bool :=
  if fromFeature.ftype = feature.ftype then
    match feature.ftype with
    | .scalar | .motor =>
      fromFeature.primitive == feature.primitive
    | .analogStick =>
      fromFeature.up == feature.up &&
      fromFeature.down == feature.down &&
      fromFeature.right == feature.right &&
      fromFeature.left == feature.left
    | .accelerometer =>
      fromFeature.positiveX == feature.positiveX &&
      fromFeature.positiveY == feature.positiveY &&
      fromFeature.positiveZ == feature.positiveZ
    | _ => false
  else false

/-- One step of the `featuresFrom` loop of `AddControllerMap`: find the
first equivalent feature in `featuresTo`; on a hit increment the count
for the name pair and record the change. -/
def addFeatureStep (featuresTo : FeatureVector)
    (st : FeatureOccurrences × Bool) (fromFeature : JoystickFeature) :
    FeatureOccurrences × Bool :=
  match featuresTo.find? (fun feature => equivalent fromFeature feature) with
  | some toFeature =>
    (incOcc st.1 ⟨fromFeature.name, toFeature.name⟩, true)
  | none => st

/-- `CControllerMapper::AddControllerMap` (ControllerMapper.cpp lines
59-120): access `model.GetMap()[needle]` (inserting an empty table when
absent), fold the matching loop over `featuresFrom`, write the table
back, and call `model.Reset()` iff a count changed.  Returns the updated
model and `bChanged`. -/
def addControllerMap (model : CControllerModel)
    (controllerFrom : String) (featuresFrom : FeatureVector)
    (controllerTo : String) (featuresTo : FeatureVector) :
    CControllerModel × Bool :=
  let needle : ControllerMapItem := ⟨controllerFrom, controllerTo⟩
  let controllerMap := ensureKey [] model.map needle
  let featureMap :=
    match lookupList controllerMap needle with
    | some m => m
    | none => []
  let res := featuresFrom.foldl (addFeatureStep featuresTo) (featureMap, false)
  let controllerMap2 := setKey controllerMap needle res.1
  if res.2 then
    (⟨controllerMap2, model.resetCount + 1⟩, true)
  else
    (⟨controllerMap2, model.resetCount⟩, false)

/-- Family key computed in `OnAdd`/`TransformFeatures`:
`CJoystickFamily(driverInfo.Name(), driverInfo.Provider())`. -/
def familyOf (driverInfo : Device) : CJoystickFamily :=
  ⟨driverInfo.name, driverInfo.provider⟩

/-- Geometry key computed in `OnAdd`/`TransformFeatures`:
`CDriverGeometry(ButtonCount(), HatCount(), AxisCount())`. -/
def geometryOf (driverInfo : Device) : CDriverGeometry :=
  ⟨driverInfo.buttonCount, driverInfo.hatCount, driverInfo.axisCount⟩

/-- Lookup of a model in a registry after `operator[]` has ensured it
exists (absent key yields the empty model, matching value
initialization). -/
def getModel {κ : Type} [DecidableEq κ]
    (models : List (κ × CControllerModel)) (k : κ) : CControllerModel :=
  match lookupList models k with
  | some m => m
  | none => emptyModel

/-- The controller pair enumeration of `OnAdd` (ControllerMapper.cpp
lines 48-56): for every entry `itTo`, every entry `itFrom` from the
start of the map while `itFrom->first < itTo->first`. -/
def controllerPairs (buttonMap : ButtonMap) :
    List ((String × FeatureVector) × (String × FeatureVector)) :=
  (buttonMap.map fun itTo =>
    (buttonMap.takeWhile fun itFrom => strLt itFrom.1 itTo.1).map
      fun itFrom => (itFrom, itTo)).flatten

/-- The whole mapper state: the observed-device set and the two model
registries (members `m_observedDevices`, `m_familyModels`,
`m_geometryModels`, modelled from the spec as they are declared outside
this unit). -/
structure CControllerMapper where
  m_observedDevices : List Device
  m_familyModels : List (CJoystickFamily × CControllerModel)
  m_geometryModels : List (CDriverGeometry × CControllerModel)
deriving DecidableEq, Repr

/-- The mapper state at construction: nothing observed, no models. -/
def emptyMapper : CControllerMapper := ⟨[], [], []⟩

/-- One pass of the pair loop body of `OnAdd` over both models. -/
def onAddPairStep (st : CControllerModel × CControllerModel)
    (p : (String × FeatureVector) × (String × FeatureVector)) :
    CControllerModel × CControllerModel :=
  ((addControllerMap st.1 p.1.1 p.1.2 p.2.1 p.2.2).1,
   (addControllerMap st.2 p.1.1 p.1.2 p.2.1 p.2.2).1)

/-- `CControllerMapper::OnAdd` (ControllerMapper.cpp lines 32-57): skip
already-observed devices, record the device, ensure both models exist
(`operator[]`), and feed every enumerated controller pair to
`AddControllerMap` on both models. -/
def onAdd (mapper : CControllerMapper) (driverInfo : Device)
    (buttonMap : ButtonMap) : CControllerMapper :=
  if driverInfo ∈ mapper.m_observedDevices then
    mapper
  else
    let family := familyOf driverInfo
    let geometry := geometryOf driverInfo
    let familyModels := ensureKey emptyModel mapper.m_familyModels family
    let geometryModels := ensureKey emptyModel mapper.m_geometryModels geometry
    let final := (controllerPairs buttonMap).foldl onAddPairStep
      (getModel familyModels family, getModel geometryModels geometry)
    { m_observedDevices := driverInfo :: mapper.m_observedDevices,
      m_familyModels := setKey familyModels family final.1,
      m_geometryModels := setKey geometryModels geometry final.2 }

/-- Modelled from the spec: `CControllerModel::GetNormalizedFeatures` is
declared outside this unit.  Per spec section 4.2 the query returns the
stored occurrence table for the canonical pair verbatim (direction
handling of the names is the caller's responsibility, so `bSwap` does
not change the returned table); an absent pair yields an empty table,
and any cached derived state is recomputed deterministically from the
counts, making the query observationally a pure read. -/
def getNormalizedFeatures (model : CControllerModel)
    (needle : ControllerMapItem) (bSwap : Bool) : FeatureOccurrences :=
  match lookupList model.map needle with
  | some m => m
  | none => []

/-- The body of the inner correspondence loop of `TransformFeatures`
(ControllerMapper.cpp lines 147-164): direction-adjust the stored names
per `bSwap`, find the input feature with the source name, and append a
renamed copy to the accumulator. -/
def transformAcc (bSwap : Bool) (features : FeatureVector)
    (acc : FeatureVector) (itMap : FeatureMapItem × Nat) : FeatureVector :=
  let fromFeature := if bSwap then itMap.1.toFeature else itMap.1.fromFeature
  let toFeature := if bSwap then itMap.1.fromFeature else itMap.1.toFeature
  match features.find? (fun feature => feature.name == fromFeature) with
  | some itFrom => acc ++ [{ itFrom with name := toFeature }]
  | none => acc

/-- The per-model loop body of `TransformFeatures` (ControllerMapper.cpp
lines 143-164): fold the correspondence loop over the model's stored
table for the needle. -/
def transformStep (model : CControllerModel) (needle : ControllerMapItem)
    (bSwap : Bool) (features : FeatureVector)
    (transformedFeatures : FeatureVector) : FeatureVector :=
  (getNormalizedFeatures model needle bSwap).foldl
    (transformAcc bSwap features) transformedFeatures

/-- `CControllerMapper::TransformFeatures` (ControllerMapper.cpp lines
122-169): compute the swap flag and canonical needle, ensure both models
exist (`operator[]` on the registries), run the loop body on the family
model and, only if the accumulated output is still empty, on the
geometry model.  Returns the updated mapper state and the accumulated
output vector (the C++ out-parameter `transformedFeatures`). -/
def transformFeatures (mapper : CControllerMapper) (driverInfo : Device)
    (fromController toController : String) (features : FeatureVector)
    (transformedFeatures : FeatureVector) :
    CControllerMapper × FeatureVector :=
  let bSwap : Bool := strLe toController fromController
  let needle : ControllerMapItem :=
    ⟨if bSwap then toController else fromController,
     if bSwap then fromController else toController⟩
  let family := familyOf driverInfo
  let geometry := geometryOf driverInfo
  let familyModels := ensureKey emptyModel mapper.m_familyModels family
  let geometryModels := ensureKey emptyModel mapper.m_geometryModels geometry
  let t1 := transformStep (getModel familyModels family) needle bSwap
    features transformedFeatures
  let t2 :=
    if t1.isEmpty then
      transformStep (getModel geometryModels geometry) needle bSwap features t1
    else t1
  ({ mapper with
      m_familyModels := familyModels,
      m_geometryModels := geometryModels }, t2)

/-- The spec's description of the feature equality oracle (spec section
4.1), written from its words for comparison with `equivalent`: false on
differing kinds, Scalar/Motor by the single primitive, AnalogStick by
the four directional primitives, Accelerometer by the three
positive-axis primitives, any other kind never equal. -/
def equivalentSpec (a b : JoystickFeature) : Bool :=
  if a.ftype ≠ b.ftype then false
  else
    match a.ftype with
    | .scalar | .motor => a.primitive == b.primitive
    | .analogStick =>
      a.up == b.up && a.down == b.down && a.left == b.left && a.right == b.right
    | .accelerometer =>
      a.positiveX == b.positiveX && a.positiveY == b.positiveY &&
      a.positiveZ == b.positiveZ
    | _ => false

/-- Rename a feature, as `JoystickFeature::SetName` does on the cloned
feature in `TransformFeatures`. -/
def setName (f : JoystickFeature) (n : String) : JoystickFeature :=
  { f with name := n }

/-- Occurrence count stored in a model for a pair key and feature name
pair (zero when either level is absent). -/
def modelCount (model : CControllerModel) (pair : ControllerMapItem)
    (fk : FeatureMapItem) : Nat :=
  occCount (getNormalizedFeatures model pair false) fk

/-- Count stored in the family registry under a family key. -/
def familyCount (mapper : CControllerMapper) (family : CJoystickFamily)
    (pair : ControllerMapItem) (fk : FeatureMapItem) : Nat :=
  modelCount (getModel mapper.m_familyModels family) pair fk

/-- Count stored in the geometry registry under a geometry key. -/
def geometryCount (mapper : CControllerMapper) (geometry : CDriverGeometry)
    (pair : ControllerMapItem) (fk : FeatureMapItem) : Nat :=
  modelCount (getModel mapper.m_geometryModels geometry) pair fk

/-- The family model a `TransformFeatures` call for this device reads
(empty when the family key has no entry yet). -/
def famModelOf (mapper : CControllerMapper) (driverInfo : Device) :
    CControllerModel :=
  getModel mapper.m_familyModels (familyOf driverInfo)

/-- The geometry model a `TransformFeatures` call for this device reads
(empty when the geometry key has no entry yet). -/
def geoModelOf (mapper : CControllerMapper) (driverInfo : Device) :
    CControllerModel :=
  getModel mapper.m_geometryModels (geometryOf driverInfo)

/-- The swap flag of `TransformFeatures`: `fromController >= toController`. -/
def swapOf (fromController toController : String) : Bool :=
  strLe toController fromController

/-- The canonical needle of `TransformFeatures`. -/
def needleOf (fromController toController : String) : ControllerMapItem :=
  ⟨if swapOf fromController toController then toController else fromController,
   if swapOf fromController toController then fromController else toController⟩

/-- Number of increments one `AddControllerMap(_, _, featuresFrom, _,
featuresTo)` call makes to the count of the feature name pair `fk`:
the number of from-features whose first equivalent match in `featuresTo`
carries exactly the names of `fk`. -/
def pairContribution (featuresFrom featuresTo : FeatureVector)
    (fk : FeatureMapItem) : Nat :=
  featuresFrom.countP (fun f =>
    match featuresTo.find? (fun g => equivalent f g) with
    | some g => f.name == fk.fromFeature && g.name == fk.toFeature
    | none => false)

/-- Total number of increments one `OnAdd` of a fresh device makes to
the count of `(pair, fk)` in each model it touches. -/
def mapContribution (buttonMap : ButtonMap) (pair : ControllerMapItem)
    (fk : FeatureMapItem) : Nat :=
  ((controllerPairs buttonMap).map fun p =>
    if (⟨p.1.1, p.2.1⟩ : ControllerMapItem) = pair then
      pairContribution p.1.2 p.2.2 fk
    else 0).sum

/-- The effect of the `OnAdd` pair loop on a single model: fold
`AddControllerMap` over the enumerated controller pairs. -/
def onAddModelFold (model : CControllerModel)
    (pairs : List ((String × FeatureVector) × (String × FeatureVector))) :
    CControllerModel :=
  pairs.foldl (fun m p => (addControllerMap m p.1.1 p.1.2 p.2.1 p.2.2).1) model

/-- A public operation of the orchestrator, for stating whole-history
invariants. -/
inductive MapperOp where
  | ingest (driverInfo : Device) (buttonMap : ButtonMap)
  | query (driverInfo : Device) (fromController toController : String)
      (features transformedFeatures : FeatureVector)

/-- Apply one public operation to the mapper state. -/
def applyOp (mapper : CControllerMapper) : MapperOp → CControllerMapper
  | .ingest driverInfo buttonMap => onAdd mapper driverInfo buttonMap
  | .query driverInfo fromController toController features transformedFeatures =>
    (transformFeatures mapper driverInfo fromController toController features
      transformedFeatures).1

/-- Run a sequence of public operations from the initial state. -/
def runOps (ops : List MapperOp) : CControllerMapper :=
  ops.foldl applyOp emptyMapper

/-- Ingest a batch of device observations in order. -/
def ingestAll (mapper : CControllerMapper)
    (batch : List (Device × ButtonMap)) : CControllerMapper :=
  batch.foldl (fun m db => onAdd m db.1 db.2) mapper

/-- Every pair key stored in a model's table is strictly ordered. -/
def modelPairsOrdered (model : CControllerModel) : Prop :=
  ∀ e ∈ model.map, strLt e.1.fromController e.1.toController = true

/-- Every pair key stored anywhere in the mapper state is strictly
ordered. -/
def pairsOrdered (mapper : CControllerMapper) : Prop :=
  (∀ e ∈ mapper.m_familyModels, modelPairsOrdered e.2) ∧
  (∀ e ∈ mapper.m_geometryModels, modelPairsOrdered e.2)

/-- A scalar feature with primitive `p` and name `n` (the other
primitive slots are unset, i.e. zero). -/
def scalarFeature (p : Nat) (n : String) : JoystickFeature :=
  ⟨n, .scalar, p, 0, 0, 0, 0, 0, 0, 0⟩

/-- The device of the end-to-end scenario (family F, geometry G). -/
def d1 : Device := ⟨"D1", "providerF", 10, 1, 4⟩

/-- The button map of the end-to-end scenario:
`{"Gamepad": [Scalar(p1,"A")], "Wheel": [Scalar(p1,"Accelerate")]}`. -/
def c1Map (p1 : Nat) : ButtonMap :=
  [("Gamepad", [scalarFeature p1 "A"]),
   ("Wheel", [scalarFeature p1 "Accelerate"])]

/-! ### Association-list container lemmas -/

theorem lookup_ensure_self {α β : Type} [DecidableEq α] (dfl : β)
    (m : List (α × β)) (k : α) :
    lookupList (ensureKey dfl m k) k = some ((lookupList m k).getD dfl) := by
  induction m with
  | nil => simp [ensureKey, lookupList]
  | cons e rest ih =>
    obtain ⟨k', v⟩ := e
    simp only [ensureKey, lookupList]
    by_cases h : k' = k
    · simp only [if_pos h, lookupList, if_pos h, Option.getD_some]
    · simp only [if_neg h, lookupList, if_neg h, ih]

theorem lookup_ensure_ne {α β : Type} [DecidableEq α] (dfl : β)
    (m : List (α × β)) (k p : α) (hne : p ≠ k) :
    lookupList (ensureKey dfl m k) p = lookupList m p := by
  induction m with
  | nil => simp [ensureKey, lookupList, Ne.symm hne]
  | cons e rest ih =>
    obtain ⟨k', v⟩ := e
    simp only [ensureKey]
    by_cases h : k' = k
    · rw [if_pos h]
    · rw [if_neg h]
      by_cases hp : k' = p
      · simp only [lookupList, if_pos hp]
      · simp only [lookupList, if_neg hp, ih]

theorem lookup_setKey_self {α β : Type} [DecidableEq α]
    (m : List (α × β)) (k : α) (v w : β) (hmem : lookupList m k = some w) :
    lookupList (setKey m k v) k = some v := by
  induction m with
  | nil => simp [lookupList] at hmem
  | cons e rest ih =>
    obtain ⟨k', v'⟩ := e
    by_cases h : k' = k
    · simp [setKey, if_pos h, lookupList]
    · simp only [lookupList, if_neg h] at hmem
      simp only [setKey, if_neg h, lookupList, if_neg h, ih hmem]

theorem lookup_setKey_ne {α β : Type} [DecidableEq α]
    (m : List (α × β)) (k p : α) (v : β) (hne : p ≠ k) :
    lookupList (setKey m k v) p = lookupList m p := by
  induction m with
  | nil => simp [setKey]
  | cons e rest ih =>
    obtain ⟨k', v'⟩ := e
    by_cases h : k' = k
    · have hkp : ¬k = p := Ne.symm hne
      have hk'p : ¬k' = p := fun hh => hne (hh ▸ h)
      simp only [setKey, if_pos h, lookupList, if_neg hkp, if_neg hk'p]
    · by_cases hp : k' = p
      · simp only [setKey, if_neg h, lookupList, if_pos hp]
      · simp only [setKey, if_neg h, lookupList, if_neg hp, ih]

theorem setKey_lookup_id {α β : Type} [DecidableEq α]
    (m : List (α × β)) (k : α) (v : β) (hmem : lookupList m k = some v) :
    setKey m k v = m := by
  induction m with
  | nil => simp [lookupList] at hmem
  | cons e rest ih =>
    obtain ⟨k', v'⟩ := e
    by_cases h : k' = k
    · simp only [lookupList, if_pos h, Option.some.injEq] at hmem
      simp only [setKey, if_pos h, hmem]
      rw [← h]
    · simp only [lookupList, if_neg h] at hmem
      simp only [setKey, if_neg h, ih hmem]

theorem mem_ensure {α β : Type} [DecidableEq α] (dfl : β)
    (m : List (α × β)) (k : α) (e : α × β) (he : e ∈ ensureKey dfl m k) :
    e ∈ m ∨ e = (k, dfl) := by
  induction m with
  | nil => simpa [ensureKey] using he
  | cons x rest ih =>
    obtain ⟨k', v⟩ := x
    by_cases h : k' = k
    · rw [ensureKey, if_pos h] at he
      exact Or.inl he
    · rw [ensureKey, if_neg h] at he
      rcases List.mem_cons.mp he with he' | he'
      · exact Or.inl (List.mem_cons.mpr (Or.inl he'))
      · rcases ih he' with h' | h'
        · exact Or.inl (List.mem_cons.mpr (Or.inr h'))
        · exact Or.inr h'

theorem mem_setKey {α β : Type} [DecidableEq α]
    (m : List (α × β)) (k : α) (v : β) (e : α × β) (he : e ∈ setKey m k v) :
    e ∈ m ∨ e = (k, v) := by
  induction m with
  | nil => simp [setKey] at he
  | cons x rest ih =>
    obtain ⟨k', v'⟩ := x
    by_cases h : k' = k
    · rw [setKey, if_pos h] at he
      rcases List.mem_cons.mp he with he' | he'
      · exact Or.inr he'
      · exact Or.inl (List.mem_cons.mpr (Or.inr he'))
    · rw [setKey, if_neg h] at he
      rcases List.mem_cons.mp he with he' | he'
      · exact Or.inl (List.mem_cons.mpr (Or.inl he'))
      · rcases ih he' with h' | h'
        · exact Or.inl (List.mem_cons.mpr (Or.inr h'))
        · exact Or.inr h'

theorem lookup_mem {α β : Type} [DecidableEq α]
    (m : List (α × β)) (k : α) (v : β) (h : lookupList m k = some v) :
    (k, v) ∈ m := by
  induction m with
  | nil => simp [lookupList] at h
  | cons e rest ih =>
    obtain ⟨k', v'⟩ := e
    by_cases hk : k' = k
    · simp only [lookupList, if_pos hk, Option.some.injEq] at h
      rw [← hk, ← h]
      exact List.mem_cons_self _ _
    · simp only [lookupList, if_neg hk] at h
      exact List.mem_cons.mpr (Or.inr (ih h))

theorem getModel_eq_getD {κ : Type} [DecidableEq κ]
    (models : List (κ × CControllerModel)) (k : κ) :
    getModel models k = (lookupList models k).getD emptyModel := by
  unfold getModel
  cases lookupList models k <;> rfl

theorem getModel_ensure {κ : Type} [DecidableEq κ]
    (models : List (κ × CControllerModel)) (k p : κ) :
    getModel (ensureKey emptyModel models k) p = getModel models p := by
  by_cases h : p = k
  · subst h
    rw [getModel_eq_getD, getModel_eq_getD, lookup_ensure_self]
    cases lookupList models p <;> rfl
  · rw [getModel_eq_getD, getModel_eq_getD, lookup_ensure_ne _ _ _ _ h]

/-! ### Counting lemmas for the correspondence tables -/

theorem occCount_incOcc (m : FeatureOccurrences) (k p : FeatureMapItem) :
    occCount (incOcc m k) p = occCount m p + (if k = p then 1 else 0) := by
  induction m with
  | nil =>
    by_cases h : k = p <;> simp [incOcc, occCount, lookupList, h]
  | cons e rest ih =>
    obtain ⟨k', n⟩ := e
    by_cases h : k' = k
    · by_cases hp : k' = p
      · have hkp : k = p := h ▸ hp
        simp [incOcc, if_pos h, occCount, lookupList, hp, hkp]
      · have hkp : ¬k = p := fun hh => hp (h.symm ▸ hh)
        simp [incOcc, if_pos h, occCount, lookupList, hp, hkp]
    · by_cases hp : k' = p
      · have hkp : ¬k = p := fun hh => h (hp.trans hh.symm)
        have hpk : ¬p = k := fun hh => hkp hh.symm
        simp [incOcc, if_neg h, occCount, lookupList, hp, hkp, hpk]
      · simp only [incOcc, if_neg h, occCount, lookupList, if_neg hp]
        exact ih

theorem foldAdd_occCount (featuresTo featuresFrom : FeatureVector)
    (fm : FeatureOccurrences) (b : Bool) (fk : FeatureMapItem) :
    occCount ((featuresFrom.foldl (addFeatureStep featuresTo) (fm, b)).1) fk =
      occCount fm fk + pairContribution featuresFrom featuresTo fk := by
  induction featuresFrom generalizing fm b with
  | nil => simp [pairContribution]
  | cons f rest ih =>
    obtain ⟨fkf, fkt⟩ := fk
    simp only [List.foldl_cons]
    cases hf : featuresTo.find? (fun g => equivalent f g) with
    | none =>
      simp only [addFeatureStep, hf, ih fm b, pairContribution,
        List.countP_cons]
      simp [hf]
    | some g =>
      simp only [addFeatureStep, hf, ih _ true, occCount_incOcc,
        pairContribution, List.countP_cons]
      by_cases hk : f.name = fkf ∧ g.name = fkt
      · simp only [hk.1, hk.2]
        simp
        omega
      · have h1 : ¬({ fromFeature := f.name, toFeature := g.name } :
            FeatureMapItem) = ⟨fkf, fkt⟩ := by
          simp only [FeatureMapItem.mk.injEq]
          exact fun h => hk ⟨h.1, h.2⟩
        have h2 : (f.name == fkf && g.name == fkt) = false := by
          rcases (f.name == fkf && g.name == fkt).eq_false_or_eq_true with
            h' | h'
          · simp only [Bool.and_eq_true, beq_iff_eq] at h'
            exact absurd h' hk
          · exact h'
        simp [h1, h2]

theorem foldAdd_no_match (featuresTo featuresFrom : FeatureVector)
    (st : FeatureOccurrences × Bool)
    (h : ∀ f ∈ featuresFrom, featuresTo.find? (fun g => equivalent f g) = none) :
    featuresFrom.foldl (addFeatureStep featuresTo) st = st := by
  induction featuresFrom generalizing st with
  | nil => rfl
  | cons f rest ih =>
    simp only [List.foldl_cons, addFeatureStep, h f (List.mem_cons_self _ _)]
    exact ih st (fun f' hf' => h f' (List.mem_cons.mpr (Or.inr hf')))

theorem getNorm_eq_getD (model : CControllerModel) (pair : ControllerMapItem)
    (b : Bool) :
    getNormalizedFeatures model pair b = (lookupList model.map pair).getD [] := by
  unfold getNormalizedFeatures
  cases lookupList model.map pair <;> rfl

theorem addControllerMap_eq (model : CControllerModel)
    (cf : String) (ff : FeatureVector) (ct : String) (ft : FeatureVector) :
    addControllerMap model cf ff ct ft =
      (⟨setKey (ensureKey [] model.map ⟨cf, ct⟩) ⟨cf, ct⟩
          (ff.foldl (addFeatureStep ft)
            ((lookupList model.map ⟨cf, ct⟩).getD [], false)).1,
        model.resetCount +
          if (ff.foldl (addFeatureStep ft)
            ((lookupList model.map ⟨cf, ct⟩).getD [], false)).2
          then 1 else 0⟩,
       (ff.foldl (addFeatureStep ft)
         ((lookupList model.map ⟨cf, ct⟩).getD [], false)).2) := by
  simp only [addControllerMap, lookup_ensure_self]
  cases hres : (ff.foldl (addFeatureStep ft)
      ((lookupList model.map ⟨cf, ct⟩).getD [], false)).2 <;>
    simp [hres]

theorem modelCount_addControllerMap (model : CControllerModel)
    (cf : String) (ff : FeatureVector) (ct : String) (ft : FeatureVector)
    (pair : ControllerMapItem) (fk : FeatureMapItem) :
    modelCount (addControllerMap model cf ff ct ft).1 pair fk =
      modelCount model pair fk +
        if (⟨cf, ct⟩ : ControllerMapItem) = pair
        then pairContribution ff ft fk else 0 := by
  rw [addControllerMap_eq]
  simp only [modelCount, getNorm_eq_getD]
  by_cases hp : (⟨cf, ct⟩ : ControllerMapItem) = pair
  · rw [if_pos hp, ← hp]
    rw [lookup_setKey_self _ _ _ _ (lookup_ensure_self [] model.map ⟨cf, ct⟩)]
    simp only [Option.getD_some]
    rw [foldAdd_occCount]
  · rw [if_neg hp]
    rw [lookup_setKey_ne _ _ _ _ (fun hh => hp hh.symm),
      lookup_ensure_ne _ _ _ _ (fun hh => hp hh.symm)]
    exact (Nat.add_zero _).symm

theorem resetCount_addControllerMap (model : CControllerModel)
    (cf : String) (ff : FeatureVector) (ct : String) (ft : FeatureVector) :
    (addControllerMap model cf ff ct ft).1.resetCount =
      model.resetCount +
        if (addControllerMap model cf ff ct ft).2 then 1 else 0 := by
  rw [addControllerMap_eq]

/-! ### Claim C4: the feature equality oracle -/

/-- C4.  The oracle returns false on differing kinds, compares Scalar and
Motor by the single primitive, AnalogStick by the four directional
primitives, Accelerometer by the three positive-axis primitives, returns
false on any other kind (here stated as agreement with `equivalentSpec`,
the oracle written from the spec's words), and the feature name never
influences the verdict. -/
theorem equality_oracle_matches_spec :
    (∀ a b, equivalent a b = equivalentSpec a b) ∧
    (∀ a b n₁ n₂, equivalent (setName a n₁) (setName b n₂) = equivalent a b) := by
  constructor
  · intro a b
    by_cases h : a.ftype = b.ftype
    · rw [equivalent, equivalentSpec, if_pos h, if_neg (by simp [h]), ← h]
      cases a.ftype <;> simp [Bool.and_assoc, Bool.and_comm, Bool.and_left_comm]
    · rw [equivalent, equivalentSpec, if_neg h, if_pos (by simp [h])]
  · intro a b n₁ n₂
    rfl

/-! ### Claim C5: ingestion is idempotent per device identity -/

theorem onAdd_of_mem (mapper : CControllerMapper) (driverInfo : Device)
    (buttonMap : ButtonMap) (h : driverInfo ∈ mapper.m_observedDevices) :
    onAdd mapper driverInfo buttonMap = mapper := by
  simp only [onAdd, if_pos h]

theorem mem_observed_onAdd (mapper : CControllerMapper)
    (driverInfo x : Device) (buttonMap : ButtonMap) :
    x ∈ (onAdd mapper driverInfo buttonMap).m_observedDevices ↔
      x ∈ mapper.m_observedDevices ∨ x = driverInfo := by
  by_cases h : driverInfo ∈ mapper.m_observedDevices
  · rw [onAdd_of_mem _ _ _ h]
    constructor
    · exact Or.inl
    · rintro (hx | rfl)
      · exact hx
      · exact h
  · simp only [onAdd, if_neg h, List.mem_cons]
    exact Or.comm

/-- C5.  Ingesting the same device a second time — even with a different
button map — leaves the whole mapper state (counts, models, invalidation
counters, observed set) unchanged, because the deduplication gate runs
before any model mutation. -/
theorem onAdd_idempotent (mapper : CControllerMapper) (driverInfo : Device)
    (buttonMap₁ buttonMap₂ : ButtonMap) :
    onAdd (onAdd mapper driverInfo buttonMap₁) driverInfo buttonMap₂ =
      onAdd mapper driverInfo buttonMap₁ :=
  onAdd_of_mem _ _ _
    ((mem_observed_onAdd mapper driverInfo driverInfo buttonMap₁).mpr
      (Or.inr rfl))

/-! ### Claim C3: a no-match observation -/

/-- C3 counterexample: `AddControllerMap` on a fresh model with a
canonically ordered pair (`"a" < "b"`) and no equivalent features (the
to-side is empty) returns false, but the model is NOT left structurally
unchanged — `controllerMap[needle]` (map `operator[]`) inserts a new
empty pair entry. -/
theorem addControllerMap_no_match_adds_pair_entry :
    (addControllerMap emptyModel "a" [scalarFeature 1 "A"] "b" []).2 = false ∧
    (addControllerMap emptyModel "a" [scalarFeature 1 "A"] "b" []).1 ≠
      emptyModel := by
  decide

/-- C3 (amended).  When `AddControllerMap` is called with a canonically
ordered pair and no feature in `featuresFrom` has an equivalent feature
in `featuresTo`, it returns false, performs no invalidation
(`resetCount` unchanged), and adds no feature-correspondence entry and
changes no count; the only structural change is that an empty pair entry
is created for the queried pair when it was absent (`ensureKey`, the map
`operator[]` side effect). -/
theorem addControllerMap_no_match (model : CControllerModel)
    (controllerFrom : String) (featuresFrom : FeatureVector)
    (controllerTo : String) (featuresTo : FeatureVector)
    (hord : strLt controllerFrom controllerTo = true)
    (hnm : ∀ f ∈ featuresFrom, ∀ g ∈ featuresTo, equivalent f g = false) :
    addControllerMap model controllerFrom featuresFrom controllerTo
        featuresTo =
      (⟨ensureKey [] model.map ⟨controllerFrom, controllerTo⟩,
        model.resetCount⟩, false) := by
  have hfind : ∀ f ∈ featuresFrom,
      featuresTo.find? (fun g => equivalent f g) = none := by
    intro f hf
    rw [List.find?_eq_none]
    intro g hg
    simp [hnm f hf g hg]
  rw [addControllerMap_eq, foldAdd_no_match _ _ _ hfind]
  rw [setKey_lookup_id _ _ _
    (lookup_ensure_self [] model.map ⟨controllerFrom, controllerTo⟩)]
  simp

/-- Witness for C3 (amended) at a concrete input. -/
theorem addControllerMap_no_match_witness :
    addControllerMap emptyModel "a" [scalarFeature 1 "A"] "b" [] =
      (⟨ensureKey [] emptyModel.map ⟨"a", "b"⟩, emptyModel.resetCount⟩,
        false) :=
  addControllerMap_no_match emptyModel "a" [scalarFeature 1 "A"] "b" []
    (by decide) (by intro f hf g hg; exact absurd hg (List.not_mem_nil g))

/-! ### The pair loop of OnAdd, per model -/

theorem foldPairs_proj
    (pairs : List ((String × FeatureVector) × (String × FeatureVector))) :
    ∀ fm gm : CControllerModel,
      pairs.foldl onAddPairStep (fm, gm) =
        (onAddModelFold fm pairs, onAddModelFold gm pairs) := by
  induction pairs with
  | nil => intro fm gm; rfl
  | cons p rest ih =>
    intro fm gm
    simp only [List.foldl_cons, onAddPairStep]
    rw [ih]
    rfl

theorem modelCount_onAddModelFold
    (pairs : List ((String × FeatureVector) × (String × FeatureVector)))
    (model : CControllerModel) (pair : ControllerMapItem)
    (fk : FeatureMapItem) :
    modelCount (onAddModelFold model pairs) pair fk =
      modelCount model pair fk +
        (pairs.map fun p =>
          if (⟨p.1.1, p.2.1⟩ : ControllerMapItem) = pair then
            pairContribution p.1.2 p.2.2 fk
          else 0).sum := by
  induction pairs generalizing model with
  | nil => simp [onAddModelFold]
  | cons p rest ih =>
    simp only [onAddModelFold, List.foldl_cons] at ih ⊢
    rw [ih, modelCount_addControllerMap, List.map_cons, List.sum_cons]
    omega

theorem getModel_setKey_ensure {κ : Type} [DecidableEq κ]
    (models : List (κ × CControllerModel)) (k : κ) (v : CControllerModel) :
    getModel (setKey (ensureKey emptyModel models k) k v) k = v := by
  rw [getModel_eq_getD,
    lookup_setKey_self _ _ _ _ (lookup_ensure_self emptyModel models k)]
  rfl

theorem getModel_setKey_ensure_ne {κ : Type} [DecidableEq κ]
    (models : List (κ × CControllerModel)) (k p : κ) (v : CControllerModel)
    (h : p ≠ k) :
    getModel (setKey (ensureKey emptyModel models k) k v) p =
      getModel models p := by
  rw [getModel_eq_getD, lookup_setKey_ne _ _ _ _ h,
    lookup_ensure_ne _ _ _ _ h, ← getModel_eq_getD]

/-! ### Count laws for OnAdd and TransformFeatures -/

theorem familyCount_onAdd_fresh (mapper : CControllerMapper) (dev : Device)
    (bm : ButtonMap) (pair : ControllerMapItem) (fk : FeatureMapItem)
    (h : dev ∉ mapper.m_observedDevices) :
    familyCount (onAdd mapper dev bm) (familyOf dev) pair fk =
      familyCount mapper (familyOf dev) pair fk +
        mapContribution bm pair fk := by
  simp only [onAdd, if_neg h, familyCount, foldPairs_proj]
  rw [getModel_setKey_ensure, getModel_ensure]
  rw [modelCount_onAddModelFold]
  rfl

theorem geometryCount_onAdd_fresh (mapper : CControllerMapper) (dev : Device)
    (bm : ButtonMap) (pair : ControllerMapItem) (fk : FeatureMapItem)
    (h : dev ∉ mapper.m_observedDevices) :
    geometryCount (onAdd mapper dev bm) (geometryOf dev) pair fk =
      geometryCount mapper (geometryOf dev) pair fk +
        mapContribution bm pair fk := by
  simp only [onAdd, if_neg h, geometryCount, foldPairs_proj]
  rw [getModel_setKey_ensure, getModel_ensure]
  rw [modelCount_onAddModelFold]
  rfl

theorem familyCount_onAdd_other (mapper : CControllerMapper) (dev : Device)
    (bm : ButtonMap) (fam : CJoystickFamily) (pair : ControllerMapItem)
    (fk : FeatureMapItem) (h : fam ≠ familyOf dev) :
    familyCount (onAdd mapper dev bm) fam pair fk =
      familyCount mapper fam pair fk := by
  by_cases hobs : dev ∈ mapper.m_observedDevices
  · rw [onAdd_of_mem _ _ _ hobs]
  · simp only [onAdd, if_neg hobs, familyCount, foldPairs_proj]
    rw [getModel_setKey_ensure_ne _ _ _ _ h]

theorem geometryCount_onAdd_other (mapper : CControllerMapper) (dev : Device)
    (bm : ButtonMap) (geo : CDriverGeometry) (pair : ControllerMapItem)
    (fk : FeatureMapItem) (h : geo ≠ geometryOf dev) :
    geometryCount (onAdd mapper dev bm) geo pair fk =
      geometryCount mapper geo pair fk := by
  by_cases hobs : dev ∈ mapper.m_observedDevices
  · rw [onAdd_of_mem _ _ _ hobs]
  · simp only [onAdd, if_neg hobs, geometryCount, foldPairs_proj]
    rw [getModel_setKey_ensure_ne _ _ _ _ h]

theorem transformFeatures_state (mapper : CControllerMapper) (dev : Device)
    (fromController toController : String) (features acc : FeatureVector) :
    (transformFeatures mapper dev fromController toController features
        acc).1 =
      { mapper with
          m_familyModels :=
            ensureKey emptyModel mapper.m_familyModels (familyOf dev),
          m_geometryModels :=
            ensureKey emptyModel mapper.m_geometryModels (geometryOf dev) } :=
  rfl

theorem familyCount_transform (mapper : CControllerMapper) (dev : Device)
    (fromController toController : String) (features acc : FeatureVector)
    (fam : CJoystickFamily) (pair : ControllerMapItem)
    (fk : FeatureMapItem) :
    familyCount
        (transformFeatures mapper dev fromController toController features
          acc).1 fam pair fk =
      familyCount mapper fam pair fk := by
  rw [transformFeatures_state]
  simp only [familyCount]
  rw [getModel_ensure]

theorem geometryCount_transform (mapper : CControllerMapper) (dev : Device)
    (fromController toController : String) (features acc : FeatureVector)
    (geo : CDriverGeometry) (pair : ControllerMapItem)
    (fk : FeatureMapItem) :
    geometryCount
        (transformFeatures mapper dev fromController toController features
          acc).1 geo pair fk =
      geometryCount mapper geo pair fk := by
  rw [transformFeatures_state]
  simp only [geometryCount]
  rw [getModel_ensure]

/-! ### The string order and the pair enumeration -/

theorem strLt_irrefl (a : String) : strLt a a = false := by
  simp [strLt]

theorem strLt_trans {a b c : String} (h1 : strLt a b = true)
    (h2 : strLt b c = true) : strLt a c = true := by
  simp only [strLt, decide_eq_true_eq] at h1 h2 ⊢
  exact lt_trans h1 h2

theorem pair_ne_of_strLt {x y : (String × FeatureVector)}
    (h : strLt x.1 y.1 = true) : x ≠ y := by
  intro hxy
  rw [hxy, strLt_irrefl] at h
  cases h

theorem controllerPairs_sound (bm : ButtonMap)
    (p : (String × FeatureVector) × (String × FeatureVector))
    (hp : p ∈ controllerPairs bm) :
    strLt p.1.1 p.2.1 = true ∧ p.1 ∈ bm ∧ p.2 ∈ bm := by
  simp only [controllerPairs, List.mem_flatten, List.mem_map] at hp
  obtain ⟨l, ⟨itTo, hTo, rfl⟩, hml⟩ := hp
  obtain ⟨itFrom, hFrom, rfl⟩ := List.mem_map.mp hml
  refine ⟨?_, ?_, hTo⟩
  · exact @List.mem_takeWhile_imp _ (fun itFrom => strLt itFrom.1 itTo.1)
      bm itFrom hFrom
  · show itFrom ∈ bm
    exact (List.takeWhile_sublist _).subset hFrom

theorem takeWhile_eq_filter_of_sorted (c : String) (bm : ButtonMap)
    (hs : bm.Pairwise (fun x y => strLt x.1 y.1 = true)) :
    (bm.takeWhile fun itFrom => strLt itFrom.1 c) =
      bm.filter fun itFrom => strLt itFrom.1 c := by
  induction bm with
  | nil => rfl
  | cons x xs ih =>
    rcases List.pairwise_cons.mp hs with ⟨hx, hxs⟩
    by_cases hpx : strLt x.1 c = true
    · rw [List.takeWhile_cons, if_pos hpx, List.filter_cons, if_pos hpx,
        ih hxs]
    · have hall : ∀ y ∈ xs, ¬strLt y.1 c = true := by
        intro y hy hyc
        exact hpx (strLt_trans (hx y hy) hyc)
      rw [List.takeWhile_cons]
      rw [if_neg hpx, List.filter_cons, if_neg hpx]
      exact (List.filter_eq_nil_iff.mpr hall).symm

theorem count_pair_map (l : List (String × FeatureVector))
    (itTo a b : String × FeatureVector) :
    ((l.map fun itFrom => (itFrom, itTo)).count (a, b)) =
      if itTo = b then l.count a else 0 := by
  induction l with
  | nil => simp
  | cons x xs ih =>
    simp only [List.map_cons, List.count_cons, ih]
    by_cases hTo : itTo = b
    · by_cases hx : x = a
      · simp [hTo, hx]
      · have : ¬((x, itTo) = (a, b)) := fun hh => hx (congrArg Prod.fst hh)
        simp [hTo, hx, this]
    · have : ¬((x, itTo) = (a, b)) := fun hh => hTo (congrArg Prod.snd hh)
      simp [hTo, this]

theorem sum_map_ite_count (l : List (String × FeatureVector))
    (b : String × FeatureVector) (k : Nat) :
    (l.map fun itTo => if itTo = b then k else 0).sum = k * l.count b := by
  induction l with
  | nil => simp
  | cons x xs ih =>
    simp only [List.map_cons, List.sum_cons, ih, List.count_cons]
    by_cases hx : x = b
    · have hbeq : (x == b) = true := by simpa using hx
      rw [if_pos hx, if_pos hbeq, Nat.mul_add, Nat.mul_one]
      omega
    · have hbeq : ¬(x == b) = true := by simpa using hx
      rw [if_neg hx, if_neg hbeq, Nat.add_zero]
      omega

theorem count_eq_one_of_nodup_mem {α : Type} [BEq α] [LawfulBEq α]
    {l : List α} {a : α} (hnd : l.Nodup) (ha : a ∈ l) : l.count a = 1 := by
  induction l with
  | nil => exact absurd ha (List.not_mem_nil a)
  | cons x xs ih =>
    rcases List.nodup_cons.mp hnd with ⟨hx, hxs⟩
    rcases List.mem_cons.mp ha with rfl | ha'
    · rw [List.count_cons, List.count_eq_zero.mpr hx,
        if_pos (beq_self_eq_true a), Nat.zero_add]
    · have hne : ¬(x == a) = true := fun hbeq =>
        hx ((beq_iff_eq.mp hbeq).symm ▸ ha')
      rw [List.count_cons, ih hxs ha', if_neg hne]

theorem controllerPairs_count (bm : ButtonMap)
    (hs : bm.Pairwise (fun x y => strLt x.1 y.1 = true))
    (a b : String × FeatureVector) (ha : a ∈ bm) (hb : b ∈ bm)
    (hab : strLt a.1 b.1 = true) :
    (controllerPairs bm).count (a, b) = 1 := by
  have hnd : bm.Nodup := List.Pairwise.imp (fun h => pair_ne_of_strLt h) hs
  rw [controllerPairs, List.count_flatten, List.map_map]
  have hbody : (fun itTo => ((bm.takeWhile fun itFrom =>
        strLt itFrom.1 itTo.1).map fun itFrom => (itFrom, itTo)).count
          (a, b)) =
      fun itTo => if itTo = b then
        (bm.takeWhile fun itFrom => strLt itFrom.1 b.1).count a else 0 := by
    funext itTo
    rw [count_pair_map]
    by_cases hTo : itTo = b
    · rw [if_pos hTo, if_pos hTo, hTo]
    · rw [if_neg hTo, if_neg hTo]
  rw [show ((List.count (a, b)) ∘ fun itTo => (bm.takeWhile fun itFrom =>
      strLt itFrom.1 itTo.1).map fun itFrom => (itFrom, itTo)) =
      fun itTo => ((bm.takeWhile fun itFrom =>
        strLt itFrom.1 itTo.1).map fun itFrom => (itFrom, itTo)).count
          (a, b) from rfl]
  rw [hbody, sum_map_ite_count]
  rw [takeWhile_eq_filter_of_sorted _ _ hs]
  rw [@List.count_filter _ _ _ (fun itFrom => strLt itFrom.1 b.1) a bm hab]
  rw [count_eq_one_of_nodup_mem hnd ha, count_eq_one_of_nodup_mem hnd hb]

/-! ### Preservation of the canonical-order invariant -/

theorem emptyModel_ordered : modelPairsOrdered emptyModel := by
  intro e he
  exact absurd he (List.not_mem_nil e)

theorem addControllerMap_ordered (model : CControllerModel)
    (cf : String) (ff : FeatureVector) (ct : String) (ft : FeatureVector)
    (hord : strLt cf ct = true) (hm : modelPairsOrdered model) :
    modelPairsOrdered (addControllerMap model cf ff ct ft).1 := by
  rw [addControllerMap_eq]
  intro e he
  rcases mem_setKey _ _ _ _ he with he' | he'
  · rcases mem_ensure _ _ _ _ he' with he2 | he2
    · exact hm e he2
    · rw [he2]
      exact hord
  · rw [he']
    exact hord

theorem onAddModelFold_ordered
    (pairs : List ((String × FeatureVector) × (String × FeatureVector)))
    (model : CControllerModel)
    (hpairs : ∀ p ∈ pairs, strLt p.1.1 p.2.1 = true)
    (hm : modelPairsOrdered model) :
    modelPairsOrdered (onAddModelFold model pairs) := by
  induction pairs generalizing model with
  | nil => exact hm
  | cons p rest ih =>
    simp only [onAddModelFold, List.foldl_cons] at ih ⊢
    exact ih _ (fun q hq => hpairs q (List.mem_cons.mpr (Or.inr hq)))
      (addControllerMap_ordered _ _ _ _ _
        (hpairs p (List.mem_cons_self _ _)) hm)

theorem getModel_ordered {κ : Type} [DecidableEq κ]
    (ms : List (κ × CControllerModel)) (k : κ)
    (h : ∀ e ∈ ms, modelPairsOrdered e.2) :
    modelPairsOrdered (getModel ms k) := by
  rw [getModel_eq_getD]
  cases hl : lookupList ms k with
  | none => exact emptyModel_ordered
  | some v => exact h (k, v) (lookup_mem _ _ _ hl)

theorem applyOp_ordered (m : CControllerMapper) (op : MapperOp)
    (h : pairsOrdered m) : pairsOrdered (applyOp m op) := by
  cases op with
  | ingest dev bm =>
    simp only [applyOp]
    by_cases hobs : dev ∈ m.m_observedDevices
    · rw [onAdd_of_mem _ _ _ hobs]
      exact h
    · simp only [onAdd, if_neg hobs, foldPairs_proj]
      constructor
      · intro e he
        rcases mem_setKey _ _ _ _ he with he' | he'
        · rcases mem_ensure _ _ _ _ he' with he2 | he2
          · exact h.1 e he2
          · rw [he2]
            exact emptyModel_ordered
        · rw [he']
          exact onAddModelFold_ordered _ _
            (fun p hp => (controllerPairs_sound bm p hp).1)
            (by rw [getModel_ensure]; exact getModel_ordered _ _ h.1)
      · intro e he
        rcases mem_setKey _ _ _ _ he with he' | he'
        · rcases mem_ensure _ _ _ _ he' with he2 | he2
          · exact h.2 e he2
          · rw [he2]
            exact emptyModel_ordered
        · rw [he']
          exact onAddModelFold_ordered _ _
            (fun p hp => (controllerPairs_sound bm p hp).1)
            (by rw [getModel_ensure]; exact getModel_ordered _ _ h.2)
  | query dev fc tc feats acc =>
    simp only [applyOp]
    rw [transformFeatures_state]
    constructor
    · intro e he
      rcases mem_ensure _ _ _ _ he with he' | he'
      · exact h.1 e he'
      · rw [he']
        exact emptyModel_ordered
    · intro e he
      rcases mem_ensure _ _ _ _ he with he' | he'
      · exact h.2 e he'
      · rw [he']
        exact emptyModel_ordered

theorem runOps_ordered (ops : List MapperOp) : pairsOrdered (runOps ops) := by
  suffices h : ∀ m, pairsOrdered m → pairsOrdered (ops.foldl applyOp m) by
    exact h emptyMapper
      ⟨fun e he => absurd he (List.not_mem_nil e),
       fun e he => absurd he (List.not_mem_nil e)⟩
  induction ops with
  | nil => exact fun m hm => hm
  | cons op rest ih => exact fun m hm => ih _ (applyOp_ordered m op hm)

/-! ### Output behaviour of TransformFeatures -/

theorem transformAcc_append (bSwap : Bool) (features : FeatureVector)
    (acc : FeatureVector) (itMap : FeatureMapItem × Nat) :
    transformAcc bSwap features acc itMap =
      acc ++ transformAcc bSwap features [] itMap := by
  simp only [transformAcc]
  cases hfind : features.find? (fun feature => feature.name ==
      (if bSwap then itMap.1.toFeature else itMap.1.fromFeature)) <;>
    simp [hfind]

theorem transformStep_append (model : CControllerModel)
    (needle : ControllerMapItem) (bSwap : Bool)
    (features acc : FeatureVector) :
    transformStep model needle bSwap features acc =
      acc ++ transformStep model needle bSwap features [] := by
  simp only [transformStep]
  generalize getNormalizedFeatures model needle bSwap = l
  induction l generalizing acc with
  | nil => simp
  | cons y l ih =>
    rw [List.foldl_cons, List.foldl_cons,
      ih (transformAcc bSwap features acc y),
      ih (transformAcc bSwap features [] y),
      transformAcc_append bSwap features acc y, List.append_assoc]

theorem transformFeatures_out (mapper : CControllerMapper) (dev : Device)
    (fromController toController : String) (features acc : FeatureVector) :
    (transformFeatures mapper dev fromController toController features
        acc).2 =
      if (transformStep (famModelOf mapper dev)
          (needleOf fromController toController)
          (swapOf fromController toController) features acc).isEmpty then
        transformStep (geoModelOf mapper dev)
          (needleOf fromController toController)
          (swapOf fromController toController) features
          (transformStep (famModelOf mapper dev)
            (needleOf fromController toController)
            (swapOf fromController toController) features acc)
      else
        transformStep (famModelOf mapper dev)
          (needleOf fromController toController)
          (swapOf fromController toController) features acc := by
  simp only [transformFeatures, needleOf, swapOf, famModelOf, geoModelOf,
    getModel_ensure]

theorem controllerPairs_short (bm : ButtonMap) (h : bm.length < 2) :
    controllerPairs bm = [] := by
  match bm with
  | [] => rfl
  | [x] => simp [controllerPairs, List.takeWhile_cons, strLt_irrefl]
  | x :: y :: rest => exact absurd h (by simp [List.length_cons])

/-! ### Monotonicity and additivity of correspondence counts -/

theorem familyCount_applyOp_mono (m : CControllerMapper) (op : MapperOp)
    (fam : CJoystickFamily) (pair : ControllerMapItem)
    (fk : FeatureMapItem) :
    familyCount m fam pair fk ≤ familyCount (applyOp m op) fam pair fk := by
  cases op with
  | ingest dev bm =>
    simp only [applyOp]
    by_cases hfam : fam = familyOf dev
    · subst hfam
      by_cases hobs : dev ∈ m.m_observedDevices
      · rw [onAdd_of_mem _ _ _ hobs]
      · rw [familyCount_onAdd_fresh _ _ _ _ _ hobs]
        exact Nat.le_add_right _ _
    · rw [familyCount_onAdd_other _ _ _ _ _ _ hfam]
  | query dev fc tc feats acc =>
    simp only [applyOp]
    rw [familyCount_transform]

theorem geometryCount_applyOp_mono (m : CControllerMapper) (op : MapperOp)
    (geo : CDriverGeometry) (pair : ControllerMapItem)
    (fk : FeatureMapItem) :
    geometryCount m geo pair fk ≤
      geometryCount (applyOp m op) geo pair fk := by
  cases op with
  | ingest dev bm =>
    simp only [applyOp]
    by_cases hgeo : geo = geometryOf dev
    · subst hgeo
      by_cases hobs : dev ∈ m.m_observedDevices
      · rw [onAdd_of_mem _ _ _ hobs]
      · rw [geometryCount_onAdd_fresh _ _ _ _ _ hobs]
        exact Nat.le_add_right _ _
    · rw [geometryCount_onAdd_other _ _ _ _ _ _ hgeo]
  | query dev fc tc feats acc =>
    simp only [applyOp]
    rw [geometryCount_transform]

theorem familyCount_ingestAll (batch : List (Device × ButtonMap)) :
    ∀ (mapper : CControllerMapper) (fam : CJoystickFamily)
      (pair : ControllerMapItem) (fk : FeatureMapItem),
      (∀ db ∈ batch, familyOf db.1 = fam) →
      (∀ db ∈ batch, db.1 ∉ mapper.m_observedDevices) →
      (batch.map (fun db => db.1)).Nodup →
      (∀ db ∈ batch, mapContribution db.2 pair fk = 1) →
      familyCount (ingestAll mapper batch) fam pair fk =
        familyCount mapper fam pair fk + batch.length := by
  induction batch with
  | nil =>
    intro mapper fam pair fk _ _ _ _
    simp [ingestAll]
  | cons db rest ih =>
    intro mapper fam pair fk hfam hfresh hnd hcontrib
    have hfam0 := hfam db (List.mem_cons_self _ _)
    have hfresh0 := hfresh db (List.mem_cons_self _ _)
    have hcontrib0 := hcontrib db (List.mem_cons_self _ _)
    rw [List.map_cons] at hnd
    rcases List.nodup_cons.mp hnd with ⟨hnotin, hndrest⟩
    have hstep : ingestAll mapper (db :: rest) =
        ingestAll (onAdd mapper db.1 db.2) rest := rfl
    rw [hstep]
    rw [ih (onAdd mapper db.1 db.2) fam pair fk
      (fun q hq => hfam q (List.mem_cons.mpr (Or.inr hq)))
      (fun q hq => by
        rw [mem_observed_onAdd]
        rintro (h' | h')
        · exact hfresh q (List.mem_cons.mpr (Or.inr hq)) h'
        · exact hnotin (h' ▸ List.mem_map_of_mem (fun db => db.1) hq))
      hndrest
      (fun q hq => hcontrib q (List.mem_cons.mpr (Or.inr hq)))]
    rw [← hfam0, familyCount_onAdd_fresh _ _ _ _ _ hfresh0, hcontrib0]
    simp only [List.length_cons]
    omega

/-! ### Claim C2: canonical pair ordering -/

/-- C2.  (1) After any sequence of public operations from the initial
state, every `ControllerPairKey` stored in any family or geometry model
satisfies `from < to` strictly (queries, including those with
`fromController = toController`, never introduce a violating key).
(2) Every pair `OnAdd` enumerates is strictly ordered and drawn from the
button map.  (3) For a sorted button map (the `std::map` iteration
order), each unordered pair of distinct entries is fed to the models
exactly once, with the lexicographically smaller identity as `from`. -/
theorem canonical_pair_ordering :
    (∀ ops : List MapperOp, pairsOrdered (runOps ops)) ∧
    (∀ (bm : ButtonMap) p, p ∈ controllerPairs bm →
      strLt p.1.1 p.2.1 = true ∧ p.1 ∈ bm ∧ p.2 ∈ bm) ∧
    (∀ bm : ButtonMap, bm.Pairwise (fun x y => strLt x.1 y.1 = true) →
      ∀ a b, a ∈ bm → b ∈ bm → strLt a.1 b.1 = true →
        (controllerPairs bm).count (a, b) = 1) :=
  ⟨runOps_ordered,
   controllerPairs_sound,
   fun bm hs a b ha hb hab => controllerPairs_count bm hs a b ha hb hab⟩

/-- Witness for C2 at concrete inputs. -/
theorem canonical_pair_ordering_witness :
    pairsOrdered (runOps [.ingest d1 (c1Map 0),
      .query d1 "Wheel" "Gamepad" [scalarFeature 0 "Accelerate"] []]) ∧
    (controllerPairs (c1Map 0)).count
      (("Gamepad", [scalarFeature 0 "A"]),
       ("Wheel", [scalarFeature 0 "Accelerate"])) = 1 :=
  ⟨canonical_pair_ordering.1 _,
   canonical_pair_ordering.2.2 (c1Map 0) (by decide)
     ("Gamepad", [scalarFeature 0 "A"])
     ("Wheel", [scalarFeature 0 "Accelerate"])
     (by decide) (by decide) (by decide)⟩

/-! ### Claim C6: counts never decrease; distinct devices add exactly N -/

/-- C6.  No public operation decreases any feature correspondence count
in any family or geometry model, and ingesting a batch of N structurally
distinct, not-yet-observed devices of one family whose button maps each
reproduce a given correspondence exactly once raises that
correspondence's family count by exactly N. -/
theorem counts_monotone_and_additive :
    (∀ (m : CControllerMapper) (op : MapperOp) (fam : CJoystickFamily)
        (pair : ControllerMapItem) (fk : FeatureMapItem),
      familyCount m fam pair fk ≤ familyCount (applyOp m op) fam pair fk) ∧
    (∀ (m : CControllerMapper) (op : MapperOp) (geo : CDriverGeometry)
        (pair : ControllerMapItem) (fk : FeatureMapItem),
      geometryCount m geo pair fk ≤
        geometryCount (applyOp m op) geo pair fk) ∧
    (∀ (batch : List (Device × ButtonMap)) (mapper : CControllerMapper)
        (fam : CJoystickFamily) (pair : ControllerMapItem)
        (fk : FeatureMapItem),
      (∀ db ∈ batch, familyOf db.1 = fam) →
      (∀ db ∈ batch, db.1 ∉ mapper.m_observedDevices) →
      (batch.map (fun db => db.1)).Nodup →
      (∀ db ∈ batch, mapContribution db.2 pair fk = 1) →
      familyCount (ingestAll mapper batch) fam pair fk =
        familyCount mapper fam pair fk + batch.length) :=
  ⟨familyCount_applyOp_mono, geometryCount_applyOp_mono,
   fun batch mapper fam pair fk h1 h2 h3 h4 =>
     familyCount_ingestAll batch mapper fam pair fk h1 h2 h3 h4⟩

/-- Witness for C6 at a concrete batch of two structurally distinct
devices of the same family. -/
theorem counts_monotone_and_additive_witness :
    familyCount
      (ingestAll emptyMapper
        [((⟨"D2", "P", 1, 0, 0⟩ : Device), c1Map 3),
         ((⟨"D2", "P", 2, 0, 0⟩ : Device), c1Map 3)])
      ⟨"D2", "P"⟩ ⟨"Gamepad", "Wheel"⟩ ⟨"A", "Accelerate"⟩ =
      familyCount emptyMapper ⟨"D2", "P"⟩ ⟨"Gamepad", "Wheel"⟩
          ⟨"A", "Accelerate"⟩ +
        2 :=
  counts_monotone_and_additive.2.2
    [((⟨"D2", "P", 1, 0, 0⟩ : Device), c1Map 3),
     ((⟨"D2", "P", 2, 0, 0⟩ : Device), c1Map 3)]
    emptyMapper ⟨"D2", "P"⟩ ⟨"Gamepad", "Wheel"⟩ ⟨"A", "Accelerate"⟩
    (by decide) (by decide) (by decide) (by decide)

/-! ### Claim C7: family model first, geometry model as fallback -/

/-- C7.  `TransformFeatures` consults the family model first and the
geometry model only as a fallback: if the family model holds no
correspondence entries for the canonical pair, the result is the one
derived from the geometry model; if the family pass yields any output,
the result equals that family-derived output for every possible content
of the geometry registry (the geometry model is never consulted, and the
result is not a union). -/
theorem transform_family_model_first :
    (∀ (mapper : CControllerMapper) (dev : Device) (fc tc : String)
        (features : FeatureVector),
      getNormalizedFeatures (famModelOf mapper dev) (needleOf fc tc)
          (swapOf fc tc) = [] →
      (transformFeatures mapper dev fc tc features []).2 =
        transformStep (geoModelOf mapper dev) (needleOf fc tc)
          (swapOf fc tc) features []) ∧
    (∀ (mapper : CControllerMapper)
        (gms2 : List (CDriverGeometry × CControllerModel)) (dev : Device)
        (fc tc : String) (features : FeatureVector),
      transformStep (famModelOf mapper dev) (needleOf fc tc) (swapOf fc tc)
          features [] ≠ [] →
      (transformFeatures { mapper with m_geometryModels := gms2 } dev fc tc
          features []).2 =
        transformStep (famModelOf mapper dev) (needleOf fc tc)
          (swapOf fc tc) features []) := by
  constructor
  · intro mapper dev fc tc features hfam
    rw [transformFeatures_out]
    have h1 : transformStep (famModelOf mapper dev) (needleOf fc tc)
        (swapOf fc tc) features [] = [] := by
      simp only [transformStep, hfam, List.foldl_nil]
    rw [h1]
    simp
  · intro mapper gms2 dev fc tc features hne
    have hfam_eq : famModelOf { mapper with m_geometryModels := gms2 } dev =
        famModelOf mapper dev := rfl
    rw [transformFeatures_out, hfam_eq]
    rw [if_neg (fun he => hne (List.isEmpty_iff.mp he))]

/-- Witness for C7 at concrete states: a mapper whose family registry is
empty but whose geometry model knows the correspondence, and a mapper
whose family model knows it while the geometry registry is replaced
arbitrarily. -/
theorem transform_family_model_first_witness :
    (transformFeatures
        (⟨[], [],
          [(⟨10, 1, 4⟩,
            ⟨[(⟨"Gamepad", "Wheel"⟩, [(⟨"A", "Accelerate"⟩, 1)])], 0⟩)]⟩ :
          CControllerMapper)
        d1 "Gamepad" "Wheel" [scalarFeature 5 "A"] []).2 =
      transformStep
        (geoModelOf
          (⟨[], [],
            [(⟨10, 1, 4⟩,
              ⟨[(⟨"Gamepad", "Wheel"⟩, [(⟨"A", "Accelerate"⟩, 1)])], 0⟩)]⟩ :
            CControllerMapper) d1)
        (needleOf "Gamepad" "Wheel") (swapOf "Gamepad" "Wheel")
        [scalarFeature 5 "A"] [] ∧
    (transformFeatures
        { (⟨[],
            [(⟨"D1", "providerF"⟩,
              ⟨[(⟨"Gamepad", "Wheel"⟩, [(⟨"A", "Accelerate"⟩, 1)])], 0⟩)],
            []⟩ : CControllerMapper) with
            m_geometryModels :=
              [(⟨10, 1, 4⟩,
                ⟨[(⟨"Gamepad", "Wheel"⟩, [(⟨"A", "Whatever"⟩, 1)])], 0⟩)] }
        d1 "Gamepad" "Wheel" [scalarFeature 5 "A"] []).2 =
      transformStep
        (famModelOf
          (⟨[],
            [(⟨"D1", "providerF"⟩,
              ⟨[(⟨"Gamepad", "Wheel"⟩, [(⟨"A", "Accelerate"⟩, 1)])], 0⟩)],
            []⟩ : CControllerMapper) d1)
        (needleOf "Gamepad" "Wheel") (swapOf "Gamepad" "Wheel")
        [scalarFeature 5 "A"] [] :=
  ⟨transform_family_model_first.1 _ d1 "Gamepad" "Wheel"
      [scalarFeature 5 "A"] (by decide),
   transform_family_model_first.2 _
      [(⟨10, 1, 4⟩, ⟨[(⟨"Gamepad", "Wheel"⟩, [(⟨"A", "Whatever"⟩, 1)])], 0⟩)]
      d1 "Gamepad" "Wheel" [scalarFeature 5 "A"] (by decide)⟩

/-! ### Claim C8: queries are total and default to empty -/

/-- C8.  Every operation of this core is a total function (the
embedding's operations return plain values, never an error), and a
`TransformFeatures` query for a device or controller pair about which
nothing relevant has been observed — both consulted models hold no
entry for the canonical pair — returns the empty feature sequence; in
particular every query on the initial state does. -/
theorem transform_unobserved_empty :
    (∀ (dev : Device) (fc tc : String) (features : FeatureVector),
      (transformFeatures emptyMapper dev fc tc features []).2 = []) ∧
    (∀ (mapper : CControllerMapper) (dev : Device) (fc tc : String)
        (features : FeatureVector),
      getNormalizedFeatures (famModelOf mapper dev) (needleOf fc tc)
          (swapOf fc tc) = [] →
      getNormalizedFeatures (geoModelOf mapper dev) (needleOf fc tc)
          (swapOf fc tc) = [] →
      (transformFeatures mapper dev fc tc features []).2 = []) := by
  have hgen : ∀ (mapper : CControllerMapper) (dev : Device) (fc tc : String)
      (features : FeatureVector),
      getNormalizedFeatures (famModelOf mapper dev) (needleOf fc tc)
          (swapOf fc tc) = [] →
      getNormalizedFeatures (geoModelOf mapper dev) (needleOf fc tc)
          (swapOf fc tc) = [] →
      (transformFeatures mapper dev fc tc features []).2 = [] := by
    intro mapper dev fc tc features hfam hgeo
    rw [transformFeatures_out]
    have h1 : transformStep (famModelOf mapper dev) (needleOf fc tc)
        (swapOf fc tc) features [] = [] := by
      simp only [transformStep, hfam, List.foldl_nil]
    have h2 : ∀ acc, transformStep (geoModelOf mapper dev) (needleOf fc tc)
        (swapOf fc tc) features acc = acc := by
      intro acc
      simp only [transformStep, hgeo, List.foldl_nil]
    rw [h1, h2]
    simp
  exact ⟨fun dev fc tc features => hgen emptyMapper dev fc tc features rfl rfl,
         hgen⟩

/-- Witness for C8 at a concrete state holding unrelated entries. -/
theorem transform_unobserved_empty_witness :
    (transformFeatures
        (⟨[],
          [(⟨"Other", "p"⟩,
            ⟨[(⟨"X", "Y"⟩, [(⟨"A", "B"⟩, 2)])], 1⟩)], []⟩ :
          CControllerMapper)
        d1 "Gamepad" "Wheel" [scalarFeature 5 "A"] []).2 = [] :=
  transform_unobserved_empty.2 _ d1 "Gamepad" "Wheel" [scalarFeature 5 "A"]
    (by decide) (by decide)

/-! ### Claim C9: lookups create registry entries (frame effect) -/

/-- C9.  `TransformFeatures` is not read-only on the orchestrator state:
after any call, the device's family and geometry keys are present in the
registries, bound to the model the call read (the empty model when the
key was previously absent — the map `operator[]` insertion), even when
the call returns no features; and a fresh `OnAdd` likewise binds both
keys — for a button map with fewer than two controller entries, to the
unchanged prior model (the empty model when the key was absent),
because the entries are created before any controller pair is
enumerated. -/
theorem registries_created_on_access :
    (∀ (mapper : CControllerMapper) (dev : Device) (fc tc : String)
        (features acc : FeatureVector),
      lookupList
          ((transformFeatures mapper dev fc tc features acc).1).m_familyModels
          (familyOf dev) = some (famModelOf mapper dev) ∧
      lookupList
          ((transformFeatures mapper dev fc tc features
            acc).1).m_geometryModels
          (geometryOf dev) = some (geoModelOf mapper dev)) ∧
    (∀ (mapper : CControllerMapper) (dev : Device) (bm : ButtonMap),
      dev ∉ mapper.m_observedDevices →
      lookupList (onAdd mapper dev bm).m_familyModels (familyOf dev) ≠
          none ∧
      lookupList (onAdd mapper dev bm).m_geometryModels (geometryOf dev) ≠
          none) ∧
    (∀ (mapper : CControllerMapper) (dev : Device) (bm : ButtonMap),
      dev ∉ mapper.m_observedDevices → bm.length < 2 →
      lookupList (onAdd mapper dev bm).m_familyModels (familyOf dev) =
          some (famModelOf mapper dev) ∧
      lookupList (onAdd mapper dev bm).m_geometryModels (geometryOf dev) =
          some (geoModelOf mapper dev)) := by
  refine ⟨?_, ?_, ?_⟩
  · intro mapper dev fc tc features acc
    rw [transformFeatures_state]
    constructor
    · show lookupList
          (ensureKey emptyModel mapper.m_familyModels (familyOf dev))
          (familyOf dev) = _
      rw [lookup_ensure_self, famModelOf, getModel_eq_getD]
    · show lookupList
          (ensureKey emptyModel mapper.m_geometryModels (geometryOf dev))
          (geometryOf dev) = _
      rw [lookup_ensure_self, geoModelOf, getModel_eq_getD]
  · intro mapper dev bm h
    simp only [onAdd, if_neg h]
    constructor
    · rw [lookup_setKey_self _ _ _ _
        (lookup_ensure_self emptyModel mapper.m_familyModels (familyOf dev))]
      simp
    · rw [lookup_setKey_self _ _ _ _
        (lookup_ensure_self emptyModel mapper.m_geometryModels
          (geometryOf dev))]
      simp
  · intro mapper dev bm h hlen
    simp only [onAdd, if_neg h, foldPairs_proj, controllerPairs_short bm hlen,
      onAddModelFold, List.foldl_nil]
    constructor
    · rw [lookup_setKey_self _ _ _ _
        (lookup_ensure_self emptyModel mapper.m_familyModels (familyOf dev))]
      rw [getModel_ensure, famModelOf]
    · rw [lookup_setKey_self _ _ _ _
        (lookup_ensure_self emptyModel mapper.m_geometryModels
          (geometryOf dev))]
      rw [getModel_ensure, geoModelOf]

/-- Witness for C9: a query and a one-entry ingestion on the initial
state, whose keys were absent, bind both keys to the empty model. -/
theorem registries_created_on_access_witness :
    (lookupList
        ((transformFeatures emptyMapper d1 "Gamepad" "Wheel" []
          []).1).m_familyModels (familyOf d1) =
      some (famModelOf emptyMapper d1) ∧
    lookupList
        ((transformFeatures emptyMapper d1 "Gamepad" "Wheel" []
          []).1).m_geometryModels (geometryOf d1) =
      some (geoModelOf emptyMapper d1)) ∧
    (lookupList
        ((onAdd emptyMapper d1
          [("Gamepad", [scalarFeature 1 "A"])]).m_familyModels)
        (familyOf d1) =
      some (famModelOf emptyMapper d1) ∧
    lookupList
        ((onAdd emptyMapper d1
          [("Gamepad", [scalarFeature 1 "A"])]).m_geometryModels)
        (geometryOf d1) =
      some (geoModelOf emptyMapper d1)) :=
  ⟨registries_created_on_access.1 emptyMapper d1 "Gamepad" "Wheel" [] [],
   registries_created_on_access.2.2 emptyMapper d1
     [("Gamepad", [scalarFeature 1 "A"])] (by decide) (by decide)⟩

/-! ### Claim C10: the output parameter is appended to, not cleared -/

/-- C10.  The correspondence loop appends to the accumulator without
clearing it; every `TransformFeatures` result extends the caller's
incoming `transformedFeatures` vector; and because the fallback decision
tests emptiness of the whole output vector, a call made with a non-empty
accumulator never consults the geometry model (its result equals the
family pass over the accumulator for every content of the geometry
registry), even when the family model yields no matches. -/
theorem transform_output_appends :
    (∀ (model : CControllerModel) (needle : ControllerMapItem)
        (bSwap : Bool) (features acc : FeatureVector),
      transformStep model needle bSwap features acc =
        acc ++ transformStep model needle bSwap features []) ∧
    (∀ (mapper : CControllerMapper) (dev : Device) (fc tc : String)
        (features acc : FeatureVector), ∃ tail,
      (transformFeatures mapper dev fc tc features acc).2 = acc ++ tail) ∧
    (∀ (mapper : CControllerMapper)
        (gms2 : List (CDriverGeometry × CControllerModel)) (dev : Device)
        (fc tc : String) (features acc : FeatureVector), acc ≠ [] →
      (transformFeatures { mapper with m_geometryModels := gms2 } dev fc tc
          features acc).2 =
        transformStep (famModelOf mapper dev) (needleOf fc tc)
          (swapOf fc tc) features acc) := by
  refine ⟨transformStep_append, ?_, ?_⟩
  · intro mapper dev fc tc features acc
    rw [transformFeatures_out]
    by_cases hemp : (transformStep (famModelOf mapper dev) (needleOf fc tc)
        (swapOf fc tc) features acc).isEmpty = true
    · rw [if_pos hemp]
      rw [transformStep_append (geoModelOf mapper dev),
        transformStep_append (famModelOf mapper dev), List.append_assoc]
      exact ⟨_, rfl⟩
    · rw [if_neg hemp, transformStep_append]
      exact ⟨_, rfl⟩
  · intro mapper gms2 dev fc tc features acc hacc
    have hfam_eq : famModelOf { mapper with m_geometryModels := gms2 } dev =
        famModelOf mapper dev := rfl
    rw [transformFeatures_out, hfam_eq]
    rw [if_neg (fun he => by
      have h := List.isEmpty_iff.mp he
      rw [transformStep_append] at h
      exact hacc (List.append_eq_nil.mp h).1)]

/-- Witness for C10: a call with a non-empty accumulator on a state
whose geometry model does know the pair — the output is still the family
pass over the accumulator. -/
theorem transform_output_appends_witness :
    (transformFeatures
        { emptyMapper with
            m_geometryModels :=
              [(⟨10, 1, 4⟩,
                ⟨[(⟨"Gamepad", "Wheel"⟩, [(⟨"A", "Accelerate"⟩, 1)])],
                  0⟩)] }
        d1 "Gamepad" "Wheel" [scalarFeature 5 "A"]
        [scalarFeature 9 "X"]).2 =
      transformStep (famModelOf emptyMapper d1)
        (needleOf "Gamepad" "Wheel") (swapOf "Gamepad" "Wheel")
        [scalarFeature 5 "A"] [scalarFeature 9 "X"] :=
  transform_output_appends.2.2 emptyMapper
    [(⟨10, 1, 4⟩, ⟨[(⟨"Gamepad", "Wheel"⟩, [(⟨"A", "Accelerate"⟩, 1)])], 0⟩)]
    d1 "Gamepad" "Wheel" [scalarFeature 5 "A"] [scalarFeature 9 "X"]
    (by decide)

/-! ### Claim C1: end-to-end symmetric transformation -/

/-- C1.  For every primitive `p1`: after ingesting device D1 whose
button map is `{"Gamepad": [Scalar(p1,"A")], "Wheel":
[Scalar(p1,"Accelerate")]}`, the query `Transform(D1, "Gamepad",
"Wheel", [Scalar(p1,"A")])` returns `[Scalar(p1,"Accelerate")]` and the
reverse query `Transform(D1, "Wheel", "Gamepad",
[Scalar(p1,"Accelerate")])` returns `[Scalar(p1,"A")]` — the forward
transform followed by the reverse transform reconstructs the original
feature names for the symmetrically learned correspondence. -/
theorem end_to_end_symmetric_transform (p1 : Nat) :
    (transformFeatures (onAdd emptyMapper d1 (c1Map p1)) d1 "Gamepad"
      "Wheel" [scalarFeature p1 "A"] []).2 =
      [scalarFeature p1 "Accelerate"] ∧
    (transformFeatures (onAdd emptyMapper d1 (c1Map p1)) d1 "Wheel"
      "Gamepad" [scalarFeature p1 "Accelerate"] []).2 =
      [scalarFeature p1 "A"] := by
  have hGG : strLt "Gamepad" "Gamepad" = false := by decide
  have hGW : strLt "Gamepad" "Wheel" = true := by decide
  have hWW : strLt "Wheel" "Wheel" = false := by decide
  have hLeWG : strLe "Wheel" "Gamepad" = false := by decide
  have hLeGW : strLe "Gamepad" "Wheel" = true := by decide
  have hstate : onAdd emptyMapper d1 (c1Map p1) =
      ⟨[d1],
       [(⟨"D1", "providerF"⟩,
         ⟨[(⟨"Gamepad", "Wheel"⟩, [(⟨"A", "Accelerate"⟩, 1)])], 1⟩)],
       [(⟨10, 1, 4⟩,
         ⟨[(⟨"Gamepad", "Wheel"⟩, [(⟨"A", "Accelerate"⟩, 1)])], 1⟩)]⟩ := by
    simp [onAdd, emptyMapper, d1, c1Map, controllerPairs, hGG, hGW, hWW,
      ensureKey, setKey, lookupList, getModel, familyOf, geometryOf,
      onAddPairStep, addControllerMap, addFeatureStep, equivalent,
      scalarFeature, incOcc, emptyModel]
  rw [hstate]
  constructor <;>
    simp [transformFeatures, hLeWG, hLeGW, ensureKey, getModel, lookupList,
      getNormalizedFeatures, transformStep, transformAcc, scalarFeature,
      familyOf, geometryOf, d1, emptyModel]

/-- Witness for C1 at the concrete primitive 7. -/
theorem end_to_end_symmetric_transform_witness :
    (transformFeatures (onAdd emptyMapper d1 (c1Map 7)) d1 "Gamepad"
      "Wheel" [scalarFeature 7 "A"] []).2 =
      [scalarFeature 7 "Accelerate"] ∧
    (transformFeatures (onAdd emptyMapper d1 (c1Map 7)) d1 "Wheel"
      "Gamepad" [scalarFeature 7 "Accelerate"] []).2 =
      [scalarFeature 7 "A"] :=
  end_to_end_symmetric_transform 7

/-- Witness for C4 at two concrete features. -/
theorem equality_oracle_matches_spec_witness :
    equivalent (scalarFeature 1 "A") (scalarFeature 1 "B") =
      equivalentSpec (scalarFeature 1 "A") (scalarFeature 1 "B") :=
  equality_oracle_matches_spec.1 (scalarFeature 1 "A") (scalarFeature 1 "B")

/-- Witness for C5 at a concrete device with two different button maps. -/
theorem onAdd_idempotent_witness :
    onAdd (onAdd emptyMapper d1 (c1Map 2)) d1 [] =
      onAdd emptyMapper d1 (c1Map 2) :=
  onAdd_idempotent emptyMapper d1 (c1Map 2) []

end JOYSTICK
